import Mathlib

/-!
Verification of the SimpleVector / ArrayPtr container pair.

The embedding models a `SimpleVector<Type>` as a record holding:
  * `items`    — the contents of the backing buffer owned by the internal
                 `ArrayPtr`; its length is the number of storage slots that
                 are actually allocated (`new Type[n]()` value-initialises,
                 so fresh slots hold `default`);
  * `size`     — the `size_` field;
  * `capacity` — the `capacity_` field.

Allocation of a fresh buffer of `n` slots is `List.replicate n default`;
`std::copy(src.begin(), src.end(), dest)` writing from the start of a buffer
is `stdCopy`.  Each public operation of `simple_vector.h` is translated
branch by branch below.
-/

namespace SimpleVec

structure SVec (α : Type) where
  items : List α
  size : Nat
  capacity : Nat
  deriving DecidableEq, Repr

variable {α : Type} [Inhabited α]

/-- `std::copy` of the whole of `src` into the front of buffer `dest`. -/
def stdCopy (src dest : List α) : List α :=
  src ++ dest.drop src.length

namespace SVec

/-- The live range `[begin, end)`: the first `size` slots of the buffer. -/
def elems (s : SVec α) : List α :=
  s.items.take s.size

/-- The representation invariant: `size_ ≤ capacity_` and `capacity_` equals
the number of slots allocated in the current backing buffer. -/
def good (s : SVec α) : Prop :=
  s.size ≤ s.capacity ∧ s.capacity = s.items.length

instance (s : SVec α) : Decidable s.good :=
  inferInstanceAs (Decidable (s.size ≤ s.capacity ∧ s.capacity = s.items.length))

/-- `SimpleVector()` — the default constructor. -/
def empty : SVec α := ⟨[], 0, 0⟩

/-- `SimpleVector(size_t size)` — `size` value-initialised slots, filled with
`Type()` (which they already hold). -/
def mkSized (n : Nat) : SVec α := ⟨List.replicate n default, n, n⟩

/-- `SimpleVector(size_t size, const Type& value)` — buffer of `size` slots,
`std::fill` writes `value` over all of them. -/
def mkFill (n : Nat) (v : α) : SVec α := ⟨List.replicate n v, n, n⟩

/-- `SimpleVector(std::initializer_list)` — buffer of `init.size()` slots,
the literal values assigned in order. -/
def fromList (l : List α) : SVec α := ⟨l, l.length, l.length⟩

/-- `operator=(const SimpleVector& rhs)`: allocates `tmp(rhs.size_)`, copies
the live range of `rhs` into it, swaps it in, then sets `size_ = rhs.size_`
and `capacity_ = rhs.capacity_`.  The first argument is the overwritten
destination (self-assignment is excluded by the source's assertion). -/
def copyAssign (_dest rhs : SVec α) : SVec α :=
  ⟨stdCopy rhs.elems (List.replicate rhs.size default), rhs.size, rhs.capacity⟩

/-- `Clear()` — sets `size_` to 0, buffer untouched. -/
def Clear (s : SVec α) : SVec α := { s with size := 0 }

/-- `PopBack()` — decrements `size_` (precondition `size_ ≠ 0`). -/
def PopBack (s : SVec α) : SVec α := { s with size := s.size - 1 }

/-- `Resize(new_size)`, branch for branch as the source. -/
def Resize (s : SVec α) (newSize : Nat) : SVec α :=
  if newSize ≤ s.size then
    { s with size := newSize }
  else if newSize ≤ s.capacity then
    { s with size := newSize }
  else
    let newCapacity := max newSize (2 * s.capacity)
    ⟨stdCopy s.elems (List.replicate newCapacity default), newSize, newCapacity⟩

/-- `Reserve(new_capacity)`: no-op when `new_capacity ≤ capacity_`, otherwise
construct-then-swap into a buffer of exactly `new_capacity` slots. -/
def Reserve (s : SVec α) (newCapacity : Nat) : SVec α :=
  if newCapacity ≤ s.capacity then s
  else ⟨stdCopy s.elems (List.replicate newCapacity default), s.size, newCapacity⟩

/-- `PushBack(item)`: write into slot `size_` when spare capacity exists,
otherwise grow to `max(2*capacity_, 1)` and rebuild. -/
def PushBack (s : SVec α) (item : α) : SVec α :=
  if s.size ≠ s.capacity then
    { s with items := s.items.set s.size item, size := s.size + 1 }
  else
    let newCapacity := max (2 * s.capacity) 1
    ⟨(stdCopy s.elems (List.replicate newCapacity default)).set s.size item,
      s.size + 1, newCapacity⟩

/-- `Insert(pos, value)` at offset `p = pos - begin()` (precondition
`p ≤ size_`).  In place: `std::copy_backward` shifts slots `[p, size)` to
`[p+1, size+1)` (slot `p` keeps its old value), then slot `p` receives
`value`.  Grow: prefix, `value`, and the shifted suffix are assembled in the
fresh buffer, which is then swapped in. -/
def Insert (s : SVec α) (p : Nat) (value : α) : SVec α :=
  if s.size ≠ s.capacity then
    let shifted :=
      s.items.take (p + 1) ++
        ((s.items.drop p).take (s.size - p) ++ s.items.drop (s.size + 1))
    { s with items := shifted.set p value, size := s.size + 1 }
  else
    let newCapacity := max (2 * s.capacity) 1
    let t2 := (stdCopy (s.items.take p) (List.replicate newCapacity default)).set p value
    let t3 := t2.take (p + 1) ++
        ((s.items.drop p).take (s.size - p) ++ t2.drop (s.size + 1))
    ⟨t3, s.size + 1, newCapacity⟩

/-- `Erase(pos)` at offset `p` (precondition `p < size_`): `std::copy` shifts
slots `[p+1, size)` down to `[p, size-1)`; slots from `size-1` on keep their
old values; `size_` decrements. -/
def Erase (s : SVec α) (p : Nat) : SVec α :=
  { s with
      items := s.items.take p ++
        ((s.items.drop (p + 1)).take (s.size - 1 - p) ++ s.items.drop (s.size - 1)),
      size := s.size - 1 }

/-- `At(index)` — the checked access path: out-of-range error iff
`index ≥ size_`. -/
def At (s : SVec α) (index : Nat) : Except String α :=
  if index ≥ s.size then
    Except.error "Method At(index): index >= size"
  else
    Except.ok (s.items.getD index default)

/-- `operator[](index)` — the unchecked access path: no bounds validation. -/
def get (s : SVec α) (index : Nat) : α :=
  s.items.getD index default

/-- `begin()`: `nullptr` when empty, otherwise the address of slot 0,
modelled as the offset into the buffer. -/
def beginIt (s : SVec α) : Option Nat :=
  if s.size = 0 then none else some 0

/-- `end()`: `nullptr` when empty, otherwise the address one past slot
`size_ - 1`. -/
def endIt (s : SVec α) : Option Nat :=
  if s.size = 0 then none else some s.size

/-- The values visited by iterating `[begin, end)`. -/
def iterElems (s : SVec α) : List α :=
  match s.beginIt, s.endIt with
  | some b, some e => (List.range (e - b)).map fun i => s.items.getD (b + i) default
  | _, _ => []

end SVec

/-- `std::equal(lhs.begin(), lhs.end(), rhs.begin())` over the live ranges
(only reached when the sizes agree). -/
def stdEqual : List Nat → List Nat → Bool
  | [], _ => true
  | _ :: _, [] => false
  | a :: as, b :: bs => a == b && stdEqual as bs

/-- `std::lexicographical_compare` over the two live ranges. -/
def lexCompare : List Nat → List Nat → Bool
  | _, [] => false
  | [], _ :: _ => true
  | a :: as, b :: bs =>
    if a < b then true else if b < a then false else lexCompare as bs

/-- `operator==`. -/
def svEq (a b : SVec Nat) : Bool :=
  a.size == b.size && stdEqual a.elems b.elems

/-- `operator!=`. -/
def svNe (a b : SVec Nat) : Bool := !(svEq a b)

/-- `operator<`. -/
def svLt (a b : SVec Nat) : Bool := lexCompare a.elems b.elems

/-- `operator<=`. -/
def svLe (a b : SVec Nat) : Bool := !(svLt b a)

/-- `operator>`. -/
def svGt (a b : SVec Nat) : Bool := svLt b a

/-- `operator>=`. -/
def svGe (a b : SVec Nat) : Bool := !(svLt a b)


/-!
Exception model for the reallocating operations (claim about failure
atomicity).  The element type is modelled as `Option Nat`: a C++ class type
whose move leaves the source empty (`none`, like a moved-from
`std::string`) and whose move/copy may throw.  `th n = true` means that
moving or copying an element holding the value `n` throws.
-/

structure MState where
  ptr : Option Nat
  size : Nat
  capacity : Nat
  deriving DecidableEq, Repr

/-- `v = std::move(v)`: the statements of `operator=(SimpleVector&&)` with
`rhs` aliasing `*this`, executed in order.  `items_ = std::move(rhs.items_)`
runs `ArrayPtr::operator=(ArrayPtr&&)`, whose body is
`raw_ptr_ = std::exchange(rhs.raw_ptr_, nullptr)`: `std::exchange` first
saves the old value, then stores the replacement into the (aliased) field,
then the saved old value is assigned back.  `size_` and `capacity_` go
through `std::exchange(rhs.size_, 0)` / `std::exchange(rhs.capacity_, 0)`
the same way. -/
def MState.selfMoveAssign (s : MState) : MState :=
  let oldPtr := s.ptr
  let s1 : MState := { s with ptr := none }
  let s2 : MState := { s1 with ptr := oldPtr }
  let oldSize := s2.size
  let s3 : MState := { s2 with size := 0 }
  let s4 : MState := { s3 with size := oldSize }
  let oldCap := s4.capacity
  let s5 : MState := { s4 with capacity := 0 }
  { s5 with capacity := oldCap }

section Helpers
variable {α : Type} [Inhabited α]

theorem stdCopy_replicate (xs : List α) (n : Nat) :
    stdCopy xs (List.replicate n (default : α)) =
      xs ++ List.replicate (n - xs.length) (default : α) := by
  simp [stdCopy]

omit [Inhabited α] in
theorem take_set_of_lt (l : List α) (n : Nat) (v : α) (h : n < l.length) :
    (l.set n v).take (n + 1) = l.take n ++ [v] := by
  rw [List.set_eq_take_cons_drop v h, List.take_append_eq_append_take, List.take_take]
  have h1 : (l.take n).length = n := by simp; omega
  rw [h1]
  have h2 : min (n + 1) n = n := by omega
  rw [h2]
  have h3 : n + 1 - n = 1 := by omega
  rw [h3]
  simp

omit [Inhabited α] in
theorem SVec.elems_length (s : SVec α) (hg : s.good) : s.elems.length = s.size := by
  obtain ⟨h1, h2⟩ := hg
  simp [SVec.elems]
  omega

theorem SVec.PushBack_size (s : SVec α) (v : α) : (s.PushBack v).size = s.size + 1 := by
  unfold SVec.PushBack
  split <;> rfl

theorem SVec.PushBack_elems (s : SVec α) (v : α) (hg : s.good) :
    (s.PushBack v).elems = s.elems ++ [v] := by
  obtain ⟨h1, h2⟩ := hg
  unfold SVec.PushBack
  split
  · rename_i hne
    have hlt : s.size < s.items.length := by omega
    show (s.items.set s.size v).take (s.size + 1) = s.items.take s.size ++ [v]
    exact take_set_of_lt _ _ _ hlt
  · rename_i heq
    have hsz : s.size = s.items.length := by omega
    have helen : s.elems.length = s.size := by simp [SVec.elems]; omega
    show ((stdCopy s.elems (List.replicate (max (2 * s.capacity) 1) default)).set s.size v).take (s.size + 1)
        = s.elems ++ [v]
    rw [stdCopy_replicate, helen]
    have hcap : s.size < (s.elems ++ List.replicate (max (2 * s.capacity) 1 - s.size) (default : α)).length := by
      simp [helen]
      omega
    rw [take_set_of_lt _ _ _ hcap, List.take_append_of_le_length (by omega), List.take_of_length_le (by omega)]

theorem SVec.PushBack_good (s : SVec α) (v : α) (hg : s.good) : (s.PushBack v).good := by
  obtain ⟨h1, h2⟩ := hg
  unfold SVec.PushBack SVec.good
  split
  · rename_i hne
    simp
    omega
  · rename_i heq
    have helen : s.elems.length = s.size := by simp [SVec.elems]; omega
    simp [stdCopy_replicate, helen]
    omega


omit [Inhabited α] in
theorem take_two_append (A B C : List α) :
    (A ++ (B ++ C)).take (A.length + B.length) = A ++ B := by
  rw [List.take_append_eq_append_take, List.take_of_length_le (Nat.le_add_right _ _),
    Nat.add_sub_cancel_left, List.take_append_of_le_length (Nat.le_refl _), List.take_length]

omit [Inhabited α] in
theorem take_two_append_of_eq (A B C : List α) (n : Nat) (h : n = A.length + B.length) :
    (A ++ (B ++ C)).take n = A ++ B := by
  subst h
  exact take_two_append A B C

omit [Inhabited α] in
theorem SVec.elems_take (s : SVec α) (p : Nat) (hp : p ≤ s.size) :
    s.elems.take p = s.items.take p := by
  unfold SVec.elems
  rw [List.take_take, Nat.min_eq_left hp]

omit [Inhabited α] in
theorem SVec.elems_drop (s : SVec α) (p : Nat) :
    s.elems.drop p = (s.items.drop p).take (s.size - p) := by
  unfold SVec.elems
  rw [List.drop_take]

theorem SVec.Insert_size (s : SVec α) (p : Nat) (v : α) : (s.Insert p v).size = s.size + 1 := by
  unfold SVec.Insert
  split <;> rfl

theorem SVec.Insert_elems (s : SVec α) (p : Nat) (v : α) (hg : s.good) (hp : p ≤ s.size) :
    (s.Insert p v).elems = s.elems.take p ++ v :: s.elems.drop p := by
  obtain ⟨h1, h2⟩ := hg
  rw [SVec.elems_take s p hp, SVec.elems_drop s p]
  unfold SVec.Insert
  split
  · rename_i hne
    have hlt : s.size < s.items.length := by omega
    show ((s.items.take (p + 1) ++
        ((s.items.drop p).take (s.size - p) ++ s.items.drop (s.size + 1))).set p v).take (s.size + 1)
      = s.items.take p ++ v :: (s.items.drop p).take (s.size - p)
    rw [List.set_append, if_pos (by simp; omega)]
    rw [← List.set_take, take_set_of_lt _ _ _ (by omega)]
    rw [take_two_append_of_eq (s.items.take p ++ [v]) ((s.items.drop p).take (s.size - p))
        (s.items.drop (s.size + 1)) (s.size + 1) (by simp; omega)]
    simp
  · rename_i heq
    have hlen : s.items.length = s.size := by omega
    have hAlen : (s.items.take p).length = p := by simp; omega
    show (((stdCopy (s.items.take p) (List.replicate (max (2 * s.capacity) 1) default)).set p v).take (p + 1) ++
        ((s.items.drop p).take (s.size - p) ++
          ((stdCopy (s.items.take p) (List.replicate (max (2 * s.capacity) 1) default)).set p v).drop (s.size + 1))).take (s.size + 1)
      = s.items.take p ++ v :: (s.items.drop p).take (s.size - p)
    rw [stdCopy_replicate, hAlen]
    have hXlen : (s.items.take p ++ List.replicate (max (2 * s.capacity) 1 - p) (default : α)).length
        = max (2 * s.capacity) 1 := by simp; omega
    rw [take_set_of_lt _ _ _ (by omega)]
    have hXp : (s.items.take p ++ List.replicate (max (2 * s.capacity) 1 - p) (default : α)).take p
        = s.items.take p := by
      rw [List.take_append_of_le_length (by omega), List.take_take, Nat.min_self]
    rw [hXp]
    rw [take_two_append_of_eq (s.items.take p ++ [v]) ((s.items.drop p).take (s.size - p))
        (((s.items.take p ++ List.replicate (max (2 * s.capacity) 1 - p) (default : α)).set p v).drop (s.size + 1))
        (s.size + 1) (by simp; omega)]
    simp

theorem SVec.Insert_good (s : SVec α) (p : Nat) (v : α) (hg : s.good) (hp : p ≤ s.size) :
    (s.Insert p v).good := by
  obtain ⟨h1, h2⟩ := hg
  unfold SVec.Insert SVec.good
  split
  · rename_i hne
    simp
    omega
  · rename_i heq
    have hAlen : (s.items.take p).length = p := by simp; omega
    simp [stdCopy_replicate, hAlen]
    omega

omit [Inhabited α] in
theorem SVec.Erase_size (s : SVec α) (p : Nat) : (s.Erase p).size = s.size - 1 := rfl

omit [Inhabited α] in
theorem SVec.Erase_elems (s : SVec α) (p : Nat) (hg : s.good) (hp : p < s.size) :
    (s.Erase p).elems = s.elems.take p ++ s.elems.drop (p + 1) := by
  obtain ⟨h1, h2⟩ := hg
  rw [SVec.elems_take s p (by omega), SVec.elems_drop s (p + 1)]
  show (s.items.take p ++
      ((s.items.drop (p + 1)).take (s.size - 1 - p) ++ s.items.drop (s.size - 1))).take (s.size - 1)
    = s.items.take p ++ (s.items.drop (p + 1)).take (s.size - (p + 1))
  rw [take_two_append_of_eq (s.items.take p) ((s.items.drop (p + 1)).take (s.size - 1 - p))
      (s.items.drop (s.size - 1)) (s.size - 1) (by simp; omega)]
  rw [show s.size - (p + 1) = s.size - 1 - p from by omega]

omit [Inhabited α] in
theorem SVec.Erase_good (s : SVec α) (p : Nat) (hg : s.good) (hp : p < s.size) :
    (s.Erase p).good := by
  obtain ⟨h1, h2⟩ := hg
  unfold SVec.Erase SVec.good
  simp
  omega

theorem SVec.Reserve_size (s : SVec α) (n : Nat) : (s.Reserve n).size = s.size := by
  unfold SVec.Reserve
  split <;> rfl

theorem SVec.Reserve_elems (s : SVec α) (n : Nat) (hg : s.good) :
    (s.Reserve n).elems = s.elems := by
  obtain ⟨h1, h2⟩ := hg
  unfold SVec.Reserve
  split
  · rfl
  · rename_i hgt
    have helen : s.elems.length = s.size := by simp [SVec.elems]; omega
    show (stdCopy s.elems (List.replicate n default)).take s.size = s.elems
    rw [stdCopy_replicate, helen, List.take_append_of_le_length (by omega),
      List.take_of_length_le (by omega)]

theorem SVec.Reserve_capacity_ge (s : SVec α) (n : Nat) : s.capacity ≤ (s.Reserve n).capacity := by
  unfold SVec.Reserve
  split
  · exact Nat.le_refl _
  · rename_i hgt
    show s.capacity ≤ n
    omega

theorem SVec.Reserve_noop (s : SVec α) (n : Nat) (h : n ≤ s.capacity) : s.Reserve n = s := by
  unfold SVec.Reserve
  rw [if_pos h]

theorem SVec.Reserve_grow_length (s : SVec α) (n : Nat) (hg : s.good) (h : s.capacity < n) :
    (s.Reserve n).items.length = n := by
  obtain ⟨h1, h2⟩ := hg
  unfold SVec.Reserve
  rw [if_neg (by omega)]
  have helen : s.elems.length = s.size := by simp [SVec.elems]; omega
  show (stdCopy s.elems (List.replicate n default)).length = n
  rw [stdCopy_replicate, helen]
  simp
  omega

omit [Inhabited α] in
theorem getD_take_of_lt (l : List α) (n i : Nat) (d : α) (h : i < n) :
    (l.take n).getD i d = l.getD i d := by
  simp only [List.getD_eq_getElem?_getD]
  rw [List.getElem?_take_of_lt h]

omit [Inhabited α] in
theorem getD_append_of_lt (xs ys : List α) (i : Nat) (d : α) (h : i < xs.length) :
    (xs ++ ys).getD i d = xs.getD i d := by
  simp only [List.getD_eq_getElem?_getD]
  rw [List.getElem?_append_left h]

omit [Inhabited α] in
theorem getD_append_own_length (xs ys : List α) (d : α) :
    (xs ++ ys).getD xs.length d = ys.getD 0 d := by
  simp only [List.getD_eq_getElem?_getD]
  rw [List.getElem?_append_right (Nat.le_refl _), Nat.sub_self]

theorem SVec.At_ok (s : SVec α) (i : Nat) (h : i < s.size) :
    s.At i = Except.ok (s.elems.getD i default) := by
  unfold SVec.At SVec.elems
  rw [if_neg (by omega), getD_take_of_lt _ _ _ _ h]

theorem SVec.Resize_size (s : SVec α) (n : Nat) : (s.Resize n).size = n := by
  unfold SVec.Resize
  split
  · rfl
  · split <;> rfl

theorem SVec.Resize_items_of_le_capacity (s : SVec α) (n : Nat) (h : n ≤ s.capacity) :
    (s.Resize n).items = s.items := by
  unfold SVec.Resize
  rcases le_or_lt n s.size with hle | hgt
  · rw [if_pos hle]
  · rw [if_neg (by omega), if_pos h]

omit [Inhabited α] in
theorem take_eq_take_append_replicate (l : List α) (d : α) (a b : Nat) (hab : a ≤ b)
    (hb : b ≤ l.length) (hd : ∀ i, a ≤ i → i < l.length → l.getD i d = d) :
    l.take b = l.take a ++ List.replicate (b - a) d := by
  apply List.ext_getElem
  · simp
    omega
  · intro i h1 h2
    simp only [List.length_take] at h1
    have hil : i < l.length := by omega
    rw [List.getElem_take]
    rw [List.getElem_append]
    split
    · rw [List.getElem_take]
    · rename_i hi
      simp only [List.length_take] at hi
      rw [List.getElem_replicate]
      have hai : a ≤ i := by omega
      have hgd := hd i hai hil
      rw [List.getD_eq_getElem?_getD, List.getElem?_eq_getElem hil] at hgd
      exact hgd

omit [Inhabited α] in
theorem map_range_getD (l : List α) (n : Nat) (d : α) (h : n ≤ l.length) :
    (List.range n).map (fun i => l.getD i d) = l.take n := by
  apply List.ext_getElem
  · simp
    omega
  · intro i h1 h2
    simp only [List.getElem_map, List.getElem_range, List.getElem_take]
    simp only [List.length_map, List.length_range] at h1
    rw [List.getD_eq_getElem?_getD, List.getElem?_eq_getElem (by omega)]
    rfl

theorem SVec.iterElems_eq (s : SVec α) (hsz : s.size ≤ s.items.length) :
    s.iterElems = s.elems := by
  unfold SVec.iterElems SVec.beginIt SVec.endIt SVec.elems
  by_cases h : s.size = 0
  · simp [h]
  · rw [if_neg h, if_neg h]
    show (List.range (s.size - 0)).map (fun i => s.items.getD (0 + i) default) = s.items.take s.size
    simp only [Nat.sub_zero, Nat.zero_add]
    exact map_range_getD s.items s.size default hsz

theorem stdEqual_iff_of_length :
    ∀ (xs ys : List Nat), xs.length = ys.length → (stdEqual xs ys = true ↔ xs = ys)
  | [], [] => by simp [stdEqual]
  | [], _ :: _ => by intro h; simp at h
  | _ :: _, [] => by intro h; simp at h
  | x :: xs, y :: ys => by
    intro h
    simp only [List.length_cons, Nat.add_right_cancel_iff] at h
    simp only [stdEqual, Bool.and_eq_true, beq_iff_eq, List.cons.injEq]
    rw [stdEqual_iff_of_length xs ys h]

theorem stdEqual_refl : ∀ (xs : List Nat), stdEqual xs xs = true := by
  intro xs
  exact (stdEqual_iff_of_length xs xs rfl).mpr rfl

theorem lexCompare_iff :
    ∀ (xs ys : List Nat), (lexCompare xs ys = true ↔ List.Lex (· < ·) xs ys)
  | [], [] => by
    rw [show lexCompare [] [] = false from rfl]
    exact iff_of_false (by simp) (List.Lex.not_nil_right _ _)
  | x :: xs, [] => by
    rw [show lexCompare (x :: xs) [] = false from rfl]
    exact iff_of_false (by simp) (List.Lex.not_nil_right _ _)
  | [], y :: ys => by
    rw [show lexCompare [] (y :: ys) = true from rfl]
    exact iff_of_true rfl List.Lex.nil
  | x :: xs, y :: ys => by
    rw [show lexCompare (x :: xs) (y :: ys)
        = (if x < y then true else if y < x then false else lexCompare xs ys) from rfl]
    split
    · rename_i hlt
      exact iff_of_true rfl (List.Lex.rel hlt)
    · rename_i hnlt
      split
      · rename_i hgt
        apply iff_of_false (by simp)
        intro hcon
        cases hcon with
        | cons h => omega
        | rel h => omega
      · rename_i hngt
        have hxy : x = y := by omega
        subst hxy
        rw [lexCompare_iff xs ys]
        constructor
        · exact List.Lex.cons
        · intro hcon
          cases hcon with
          | cons h => exact h
          | rel h => omega

theorem lexCompare_trans (xs ys zs : List Nat)
    (h1 : lexCompare xs ys = true) (h2 : lexCompare ys zs = true) :
    lexCompare xs zs = true := by
  rw [lexCompare_iff] at h1 h2 ⊢
  exact trans_of (List.Lex (· < ·)) h1 h2

theorem lexCompare_irrefl (xs : List Nat) : lexCompare xs xs = false := by
  by_contra hcon
  have hx : lexCompare xs xs = true := by
    cases hb : lexCompare xs xs
    · exact absurd hb hcon
    · rfl
  rw [lexCompare_iff] at hx
  exact irrefl_of (List.Lex (· < ·)) xs hx

end Helpers

/-- C1: capacity is claimed to equal the number of allocated slots after
every public operation, and after copy-assignment the fresh buffer is sized
to the source's size with the destination's capacity equal to that slot
count.  The code allocates `tmp(rhs.size_)` but then sets
`capacity_ = rhs.capacity_`: assigning from a (reachable, invariant-abiding)
source with size 1 and capacity 2 yields a destination whose recorded
capacity is 2 while its backing buffer has only 1 slot, violating the
invariant. -/
theorem C1_copy_assign_capacity_mismatch :
    (SVec.PopBack (SVec.PushBack (SVec.PushBack (SVec.empty : SVec Nat) 5) 9)).good ∧
    (SVec.copyAssign SVec.empty
      (SVec.PopBack (SVec.PushBack (SVec.PushBack (SVec.empty : SVec Nat) 5) 9))).capacity = 2 ∧
    (SVec.copyAssign SVec.empty
      (SVec.PopBack (SVec.PushBack (SVec.PushBack (SVec.empty : SVec Nat) 5) 9))).items.length = 1 ∧
    ¬ (SVec.copyAssign SVec.empty
      (SVec.PopBack (SVec.PushBack (SVec.PushBack (SVec.empty : SVec Nat) 5) 9))).good := by
  decide

/-- C2 counterexample: on the (reachable) sequence obtained by
`PushBack(7)` then `Clear()` — size 0, capacity 1, buffer still holding 7 —
`Resize(1)` takes the grow-in-place branch, and the newly exposed slot holds
the stale value 7, not the default value 0. -/
theorem C2_stale_value_counterexample :
    (SVec.Clear (SVec.PushBack (SVec.empty : SVec Nat) 7)).good ∧
    (SVec.Clear (SVec.PushBack (SVec.empty : SVec Nat) 7)).size < 1 ∧
    1 ≤ (SVec.Clear (SVec.PushBack (SVec.empty : SVec Nat) 7)).capacity ∧
    ((SVec.Clear (SVec.PushBack (SVec.empty : SVec Nat) 7)).Resize 1).size = 1 ∧
    ((SVec.Clear (SVec.PushBack (SVec.empty : SVec Nat) 7)).Resize 1).elems = [7] ∧
    ((SVec.Clear (SVec.PushBack (SVec.empty : SVec Nat) 7)).Resize 1).elems ≠ [0] := by
  decide

/-- C2 (amended): for `size < n ≤ capacity`, `Resize(n)` raises the size to
`n` and leaves the buffer untouched, so the newly exposed slots hold
whatever the backing slots held; when those slots still hold their
default-constructed values (as on a freshly allocated buffer), the exposed
slots are default values.  In particular `Resize(5)` on the freshly
constructed `{7,7,7}` yields `{7,7,7,0,0}`. -/
theorem C2_resize_within_capacity (s : SVec Nat) (n : Nat) (hg : s.good)
    (h1 : s.size < n) (h2 : n ≤ s.capacity)
    (hd : ∀ i, i < s.items.length → s.size ≤ i → s.items.getD i 0 = 0) :
    (s.Resize n).size = n ∧
    (s.Resize n).elems = s.elems ++ List.replicate (n - s.size) 0 ∧
    ((SVec.mkFill 3 7).Resize 5).elems = [7, 7, 7, 0, 0] := by
  obtain ⟨hg1, hg2⟩ := hg
  refine ⟨SVec.Resize_size s n, ?_, by decide⟩
  show (s.Resize n).items.take (s.Resize n).size = s.elems ++ List.replicate (n - s.size) 0
  rw [SVec.Resize_items_of_le_capacity s n h2, SVec.Resize_size s n]
  exact take_eq_take_append_replicate s.items 0 s.size n (by omega) (by omega)
    (fun i hge hlt => hd i hlt hge)

/-- C2 witness: instantiation at the sequence with buffer `[5,0,0]`, size 1,
capacity 3, resized to 3. -/
theorem C2_resize_within_capacity_witness :
    ((⟨[5, 0, 0], 1, 3⟩ : SVec Nat).Resize 3).size = 3 ∧
    ((⟨[5, 0, 0], 1, 3⟩ : SVec Nat).Resize 3).elems
      = (⟨[5, 0, 0], 1, 3⟩ : SVec Nat).elems ++ List.replicate (3 - 1) 0 ∧
    ((SVec.mkFill 3 7).Resize 5).elems = [7, 7, 7, 0, 0] :=
  C2_resize_within_capacity ⟨[5, 0, 0], 1, 3⟩ 3 (by decide) (by decide) (by decide) (by decide)

/-- C3: on a valid sequence, `PushBack(v)` increments the size, makes
`At(oldSize)` return `v`, leaves every element below `oldSize` unchanged,
and keeps size ≤ capacity. -/
theorem C3_push_back_post (s : SVec Nat) (v : Nat) (hg : s.good) :
    (s.PushBack v).size = s.size + 1 ∧
    (s.PushBack v).At s.size = Except.ok v ∧
    (∀ i, i < s.size → (s.PushBack v).At i = s.At i) ∧
    (s.PushBack v).size ≤ (s.PushBack v).capacity := by
  have hgood := SVec.PushBack_good s v hg
  have hsz := SVec.PushBack_size s v
  have hel := SVec.PushBack_elems s v hg
  have hlen := SVec.elems_length s hg
  refine ⟨hsz, ?_, ?_, hgood.1⟩
  · rw [SVec.At_ok _ _ (by omega), hel, ← hlen, getD_append_own_length]
    rfl
  · intro i hi
    rw [SVec.At_ok _ _ (by omega), SVec.At_ok _ _ hi, hel,
      getD_append_of_lt _ _ _ _ (by omega)]

/-- C3 witness: pushing 9 onto the full sequence `[4]` makes `At 1` return
9. -/
theorem C3_push_back_post_witness :
    ((⟨[4], 1, 1⟩ : SVec Nat).PushBack 9).At 1 = Except.ok 9 :=
  (C3_push_back_post ⟨[4], 1, 1⟩ 9 (by decide)).2.1

/-- C4: inserting a value at any position `p ≤ size` and then erasing at the
same position restores a sequence with the original size and elements, so
the two sequences are equal under the sequence equality operator. -/
theorem C4_insert_erase_roundtrip (s : SVec Nat) (p : Nat) (v : Nat)
    (hg : s.good) (hp : p ≤ s.size) :
    ((s.Insert p v).Erase p).size = s.size ∧
    ((s.Insert p v).Erase p).elems = s.elems ∧
    svEq ((s.Insert p v).Erase p) s = true := by
  have hg1 := SVec.Insert_good s p v hg hp
  have hs1 := SVec.Insert_size s p v
  have he1 := SVec.Insert_elems s p v hg hp
  have hsE := SVec.Erase_size (s.Insert p v) p
  have heE := SVec.Erase_elems (s.Insert p v) p hg1 (by omega)
  have hlen := SVec.elems_length s hg
  have hsize : ((s.Insert p v).Erase p).size = s.size := by omega
  have helems : ((s.Insert p v).Erase p).elems = s.elems := by
    rw [heE, he1]
    rw [List.take_append_of_le_length (by simp; omega), List.take_take, Nat.min_self]
    rw [show p + 1 = (s.elems.take p).length + 1 from by simp; omega, List.drop_append]
    show s.elems.take p ++ s.elems.drop p = s.elems
    exact List.take_append_drop p s.elems
  refine ⟨hsize, helems, ?_⟩
  unfold svEq
  rw [hsize, helems]
  simp [stdEqual_refl]

/-- C4 witness: insert 9 at position 1 of `[1,2,3]` then erase position 1
restores the elements `[1,2,3]`. -/
theorem C4_insert_erase_roundtrip_witness :
    (((SVec.fromList [1, 2, 3] : SVec Nat).Insert 1 9).Erase 1).elems
      = (SVec.fromList [1, 2, 3] : SVec Nat).elems :=
  (C4_insert_erase_roundtrip (SVec.fromList [1, 2, 3]) 1 9 (by decide) (by decide)).2.1

/-- C6: `Reserve(n)` never decreases capacity, never changes size or
elements, is the identity when `n ≤ capacity`, and otherwise installs a
buffer of exactly `n` slots (capacity `n`) holding the live elements in
order. -/
theorem C6_reserve_frame (s : SVec Nat) (n : Nat) (hg : s.good) :
    s.capacity ≤ (s.Reserve n).capacity ∧
    (s.Reserve n).size = s.size ∧
    (s.Reserve n).elems = s.elems ∧
    (n ≤ s.capacity → s.Reserve n = s) ∧
    (s.capacity < n → (s.Reserve n).items.length = n ∧ (s.Reserve n).capacity = n) := by
  refine ⟨SVec.Reserve_capacity_ge s n, SVec.Reserve_size s n, SVec.Reserve_elems s n hg,
    SVec.Reserve_noop s n, fun h => ⟨SVec.Reserve_grow_length s n hg h, ?_⟩⟩
  unfold SVec.Reserve
  rw [if_neg (by omega)]

/-- C6 witness: reserving 5 slots on `[1,2,3]` installs a 5-slot buffer with
capacity 5. -/
theorem C6_reserve_frame_witness :
    ((SVec.fromList [1, 2, 3] : SVec Nat).Reserve 5).items.length = 5 ∧
    ((SVec.fromList [1, 2, 3] : SVec Nat).Reserve 5).capacity = 5 :=
  (C6_reserve_frame (SVec.fromList [1, 2, 3]) 5 (by decide)).2.2.2.2 (by decide)

/-- C7: `At(index)` fails with the out-of-range error exactly when
`index ≥ size`, and below the size it returns the same element as the
unchecked access path (which performs no bounds validation and is total). -/
theorem C7_at_bounds (s : SVec Nat) (i : Nat) :
    ((∃ msg, s.At i = Except.error msg) ↔ s.size ≤ i) ∧
    (i < s.size → s.At i = Except.ok (s.get i)) := by
  constructor
  · constructor
    · rintro ⟨msg, hmsg⟩
      by_contra hcon
      rw [SVec.At_ok s i (by omega)] at hmsg
      simp at hmsg
    · intro h
      refine ⟨"Method At(index): index >= size", ?_⟩
      unfold SVec.At
      rw [if_pos h]
  · intro h
    unfold SVec.At SVec.get
    rw [if_neg (by omega)]

/-- C7 witness: `At 1` on `[4,5]` returns the element the unchecked access
returns. -/
theorem C7_at_bounds_witness :
    (⟨[4, 5], 2, 2⟩ : SVec Nat).At 1 = Except.ok ((⟨[4, 5], 2, 2⟩ : SVec Nat).get 1) :=
  (C7_at_bounds ⟨[4, 5], 2, 2⟩ 1).2 (by decide)

/-- C8: sequence equality holds iff the sizes agree and the live elements
agree in order; the less-than operator is the lexicographic order on the
live elements; the derived operators agree with their definitions from
equality and less-than; equality is reflexive and symmetric; less-than is
irreflexive and transitive. -/
theorem C8_comparison_semantics (a b c : SVec Nat) (ha : a.good) (hb : b.good) (hc : c.good) :
    (svEq a b = true ↔ (a.size = b.size ∧ a.elems = b.elems)) ∧
    (svLt a b = true ↔ List.Lex (· < ·) a.elems b.elems) ∧
    (svNe a b = !(svEq a b)) ∧
    (svLe a b = !(svLt b a)) ∧
    (svGt a b = svLt b a) ∧
    (svGe a b = !(svLt a b)) ∧
    (svEq a a = true) ∧
    (svEq a b = svEq b a) ∧
    (svLt a a = false) ∧
    (svLt a b = true → svLt b c = true → svLt a c = true) := by
  have hEq : ∀ (x y : SVec Nat), x.good → y.good →
      (svEq x y = true ↔ (x.size = y.size ∧ x.elems = y.elems)) := by
    intro x y hx hy
    unfold svEq
    rw [Bool.and_eq_true, beq_iff_eq]
    constructor
    · rintro ⟨h1, h2⟩
      exact ⟨h1, (stdEqual_iff_of_length _ _
        (by rw [SVec.elems_length x hx, SVec.elems_length y hy, h1])).mp h2⟩
    · rintro ⟨h1, h2⟩
      exact ⟨h1, (stdEqual_iff_of_length _ _
        (by rw [SVec.elems_length x hx, SVec.elems_length y hy, h1])).mpr h2⟩
  refine ⟨hEq a b ha hb, lexCompare_iff a.elems b.elems, rfl, rfl, rfl, rfl, ?_, ?_, ?_, ?_⟩
  · unfold svEq
    simp [stdEqual_refl]
  · rw [Bool.eq_iff_iff, hEq a b ha hb, hEq b a hb ha]
    constructor
    · rintro ⟨u, w⟩
      exact ⟨u.symm, w.symm⟩
    · rintro ⟨u, w⟩
      exact ⟨u.symm, w.symm⟩
  · exact lexCompare_irrefl a.elems
  · intro h1 h2
    exact lexCompare_trans a.elems b.elems c.elems h1 h2

/-- C8 witness: transitivity instantiated at `[1] < [1,5] < [2]`. -/
theorem C8_comparison_semantics_witness :
    svLt (SVec.fromList [1] : SVec Nat) (SVec.fromList [2]) = true :=
  (C8_comparison_semantics (SVec.fromList [1]) (SVec.fromList [1, 5]) (SVec.fromList [2])
    (by decide) (by decide) (by decide)).2.2.2.2.2.2.2.2.2 (by decide) (by decide)

/-- C9: the iteration range `[begin, end)` visits exactly the first `size`
elements, and on an empty sequence — even one with nonzero capacity — both
`begin()` and `end()` are the null marker.  The range functions are pure
(they read only `size_` and the buffer), so obtaining the range is
repeatable and side-effect free by construction. -/
theorem C9_iteration_range (s : SVec Nat) (hg : s.good) :
    s.iterElems = s.elems ∧
    (s.size = 0 → s.beginIt = none ∧ s.endIt = none) := by
  refine ⟨SVec.iterElems_eq s (by obtain ⟨h1, h2⟩ := hg; omega), ?_⟩
  intro h
  unfold SVec.beginIt SVec.endIt
  rw [if_pos h, if_pos h]
  exact ⟨rfl, rfl⟩

/-- C9 witness: the empty sequence with capacity 2 has null begin and end
markers. -/
theorem C9_iteration_range_witness :
    (⟨[0, 0], 0, 2⟩ : SVec Nat).beginIt = none ∧ (⟨[0, 0], 0, 2⟩ : SVec Nat).endIt = none :=
  (C9_iteration_range ⟨[0, 0], 0, 2⟩ (by decide)).2 (by decide)

/-- C10: move-assigning a sequence into itself leaves the buffer pointer,
size and capacity unchanged, because each `std::exchange` returns the old
field value, which is then written straight back into the aliased field. -/
theorem C10_self_move_assign_id (m : MState) : m.selfMoveAssign = m := rfl

end SimpleVec
